import Mathlib

/-!
Verification development for the `dominant-colours` image-quantisation tool
(`src/main.rs`).

The program samples an image's pixels as 3-component colour vectors, runs
k-means clustering over them (via the external `linfa_clustering::KMeans`
library), counts the pixels assigned to each cluster, turns the counts into
percentages, and sorts the resulting colour/percentage records by percentage
descending.  Auxiliary functions format a colour as a lowercase hex string
and render an SVG swatch.

Embedding conventions:
* `f64` values are carried as exact rationals (`ℚ`).  All numerators and
  denominators arising in this program (pixel counts at most 150×150 and
  channel values at most 255) are far below 2^53, so the integer-valued
  quantities are exactly representable; where float-specific behaviour
  matters (NaN, infinities, the `as u8` cast), the dedicated `FView` type
  models the relevant IEEE semantics.  Finite overflow to infinity cannot
  occur at this program's magnitudes and is not modelled inside `FView.fin`
  arithmetic.
* Rust's stable `slice::sort_by` is modelled by `List.mergeSort`, which is
  stable and sorts by the same boolean comparison.
* Indexing panics are modelled with `Option` (`none` = panic).
-/

/-- Record of one extracted colour, mirroring `struct ColourInfo` in
`src/main.rs`: an `[u8; 3]` channel triple and an `f64` percentage. -/
structure ColourInfo where
  rgb : ℕ × ℕ × ℕ
  percentage : ℚ
deriving DecidableEq

/-! ### Float view: the fragments of IEEE f64 semantics the claims need -/

/-- View of an `f64` value: NaN, the two infinities, or a finite value
(carried exactly as a rational). -/
inductive FView
  | nan
  | posinf
  | neginf
  | fin (q : ℚ)
deriving DecidableEq

/-- Rust's saturating `f64 as u8` cast on a finite value: truncate toward
zero, then clamp into `[0, 255]`.  Every negative value ends at `0` (values
in `(-1, 0)` truncate to `0`; values `≤ -1` saturate), so the clamp is
expressed directly. -/
def ratToU8 (q : ℚ) : ℕ :=
  if q < 0 then 0 else Int.toNat (min 255 ⌊q⌋)

/-- Rust's `f64 as u8` cast (used at `src/main.rs:138` on centroid
components): saturating, with NaN mapped to `0`. -/
def FView.as_u8 : FView → ℕ
  | FView.nan => 0
  | FView.neginf => 0
  | FView.posinf => 255
  | FView.fin q => ratToU8 q

/-- IEEE division on viewed f64 values, for the cases reachable in this
program: a finite dividend over zero gives NaN (0/0) or a signed infinity;
other finite quotients are exact. -/
def FView.fdiv : FView → FView → FView
  | FView.nan, _ => FView.nan
  | _, FView.nan => FView.nan
  | FView.fin a, FView.fin b =>
      if b = 0 then
        (if a = 0 then FView.nan else if 0 < a then FView.posinf else FView.neginf)
      else FView.fin (a / b)
  | FView.posinf, FView.fin b => if 0 ≤ b then FView.posinf else FView.neginf
  | FView.neginf, FView.fin b => if 0 ≤ b then FView.neginf else FView.posinf
  | FView.fin _, FView.posinf => FView.fin 0
  | FView.fin _, FView.neginf => FView.fin 0
  | FView.posinf, _ => FView.nan
  | FView.neginf, _ => FView.nan

/-- IEEE multiplication on viewed f64 values (infinity times zero is NaN). -/
def FView.fmul : FView → FView → FView
  | FView.nan, _ => FView.nan
  | _, FView.nan => FView.nan
  | FView.fin a, FView.fin b => FView.fin (a * b)
  | FView.posinf, FView.fin b =>
      if b = 0 then FView.nan else if 0 < b then FView.posinf else FView.neginf
  | FView.neginf, FView.fin b =>
      if b = 0 then FView.nan else if 0 < b then FView.neginf else FView.posinf
  | FView.fin a, FView.posinf =>
      if a = 0 then FView.nan else if 0 < a then FView.posinf else FView.neginf
  | FView.fin a, FView.neginf =>
      if a = 0 then FView.nan else if 0 < a then FView.neginf else FView.posinf
  | FView.posinf, FView.posinf => FView.posinf
  | FView.posinf, FView.neginf => FView.neginf
  | FView.neginf, FView.posinf => FView.neginf
  | FView.neginf, FView.neginf => FView.posinf

/-- Numeric comparison of two rationals as a Rust `Ordering`. -/
def cmpRat (a b : ℚ) : Ordering :=
  if a < b then Ordering.lt else if b < a then Ordering.gt else Ordering.eq

/-- Rust's `f64::partial_cmp`: `None` exactly when either operand is NaN
(this is what the sort comparator at `src/main.rs:144` unwraps). -/
def partialCmpF : FView → FView → Option Ordering
  | FView.nan, _ => none
  | _, FView.nan => none
  | FView.posinf, FView.posinf => some Ordering.eq
  | FView.posinf, _ => some Ordering.gt
  | _, FView.posinf => some Ordering.lt
  | FView.neginf, FView.neginf => some Ordering.eq
  | FView.neginf, _ => some Ordering.lt
  | _, FView.neginf => some Ordering.gt
  | FView.fin a, FView.fin b => some (cmpRat a b)

/-- Percentage of one cluster computed at the f64 level, as in
`(cluster_sizes[i] as f64 / total_pixels) * 100.0` (`src/main.rs:139`). -/
def pctF (count total : ℕ) : FView :=
  FView.fmul (FView.fdiv (FView.fin (count : ℚ)) (FView.fin (total : ℚ))) (FView.fin 100)

/-- Percentage of one cluster in the exact-rational pipeline model,
`(cluster_sizes[i] as f64 / total_pixels) * 100.0` (`src/main.rs:139`). -/
def pctOf (count : ℕ) (total : ℚ) : ℚ :=
  ((count : ℚ) / total) * 100

/-! ### Hex formatting (`rgb_to_hex`, `src/main.rs:60-62`) -/

/-- Lowercase hexadecimal digit character for `d < 16` (`0`-`9`, `a`-`f`). -/
def hexDigit (d : ℕ) : Char :=
  Char.ofNat (if d < 10 then 48 + d else 87 + d)

/-- Rust's `{:02x}` formatting of a `u8`: two lowercase hex digits,
zero-padded (a byte is below 256, so exactly two digits). -/
def hex2 (n : ℕ) : String :=
  String.mk [hexDigit (n / 16), hexDigit (n % 16)]

/-- The `rgb_to_hex` function of `src/main.rs`:
`format!("#{:02x}{:02x}{:02x}", rgb[0], rgb[1], rgb[2])`. -/
def rgb_to_hex (rgb : ℕ × ℕ × ℕ) : String :=
  "#" ++ hex2 rgb.1 ++ hex2 rgb.2.1 ++ hex2 rgb.2.2

/-- Parse one lowercase hexadecimal digit character. -/
def parseHexDigit (c : Char) : Option ℕ :=
  if 48 ≤ c.toNat ∧ c.toNat ≤ 57 then some (c.toNat - 48)
  else if 97 ≤ c.toNat ∧ c.toNat ≤ 102 then some (c.toNat - 87)
  else none

/-- Parse a two-digit hexadecimal byte. -/
def parseHex2 (c₁ c₂ : Char) : Option ℕ := do
  let h ← parseHexDigit c₁
  let l ← parseHexDigit c₂
  pure (16 * h + l)

/-- Parse a `"#rrggbb"` string back into a channel triple. -/
def parseHexColour (s : String) : Option (ℕ × ℕ × ℕ) :=
  match s.data with
  | ['#', r₁, r₂, g₁, g₂, b₁, b₂] => do
      let r ← parseHex2 r₁ r₂
      let g ← parseHex2 g₁ g₂
      let b ← parseHex2 b₁ b₂
      pure (r, g, b)
  | _ => none

/-! ### One-decimal percentage formatting (Rust `{:.1}`) -/

/-- Round a rational to the nearest integer, ties to even, as IEEE-style
formatting does. -/
def roundHalfEven (x : ℚ) : ℤ :=
  let f := ⌊x⌋
  if x - f < 1 / 2 then f
  else if 1 / 2 < x - f then f + 1
  else if 2 ∣ f then f else f + 1

/-- Rust's `{:.1}` fixed-point formatting of an `f64`, modelled on the exact
rational value: one digit after the decimal point, rounding to nearest with
ties to even.  (The sign of a negative zero is not modelled; percentages in
this program are never negative.) -/
def fmt1 (q : ℚ) : String :=
  let n := roundHalfEven (q * 10)
  if 0 ≤ n then
    Nat.repr (n.toNat / 10) ++ "." ++ Nat.repr (n.toNat % 10)
  else
    "-" ++ Nat.repr ((-n).toNat / 10) ++ "." ++ Nat.repr ((-n).toNat % 10)

/-! ### SVG swatch (`save_colour_swatch`, `src/main.rs:64-88`) -/

/-- Substring relation: `s` occurs contiguously inside `t`. -/
def Substr (s t : String) : Prop :=
  ∃ p q : String, t = p ++ s ++ q

/-- The CSS colour text `rgb(r, g, b)` of one result, as interpolated by
`fill="rgb({}, {}, {})"` in `save_colour_swatch`. -/
def rgbText (c : ColourInfo) : String :=
  "rgb(" ++ Nat.repr c.rgb.1 ++ ", " ++ Nat.repr c.rgb.2.1 ++ ", " ++ Nat.repr c.rgb.2.2 ++ ")"

/-- The annotation text `r, g, b` of one result (`{}, {}, {}` in the first
`<text>` element). -/
def rgbTriple (c : ColourInfo) : String :=
  Nat.repr c.rgb.1 ++ ", " ++ Nat.repr c.rgb.2.1 ++ ", " ++ Nat.repr c.rgb.2.2

/-- Fixed SVG document header pushed first by `save_colour_swatch`. -/
def svgHeader : String :=
  "<?xml version=\"1.0\" encoding=\"UTF-8\" standalone=\"no\"?>\n<svg xmlns=\"http://www.w3.org/2000/svg\" viewBox=\"0 0 600 140\">"

/-- The tile pushed for the `i`-th result: a 100-wide rectangle at
`x = i * 100` filled with the colour, plus two annotation `<text>` lines
(`src/main.rs:72-80`). -/
def tileFor (i : ℕ) (c : ColourInfo) : String :=
  "\n    <rect x=\"" ++ Nat.repr (i * 100) ++ "\" y=\"0\" width=\"100\" height=\"100\" fill=\"" ++ rgbText c
  ++ "\"/>\n    <text x=\"" ++ Nat.repr (i * 100 + 5) ++ "\" y=\"115\" font-family=\"Arial\" font-size=\"10\" fill=\"black\">" ++ rgbTriple c
  ++ "</text>\n    <text x=\"" ++ Nat.repr (i * 100 + 5) ++ "\" y=\"130\" font-family=\"Arial\" font-size=\"10\" fill=\"black\">" ++ fmt1 c.percentage ++ "%</text>"

/-- Concatenation of the tiles of an enumerated result list, in order. -/
def joinTiles : List (ℕ × ColourInfo) → String
  | [] => ""
  | ic :: rest => tileFor ic.1 ic.2 ++ joinTiles rest

/-- The `save_colour_swatch` function of `src/main.rs`, modelled as the SVG
text it writes: start from the header, push one tile per result (in list
order, enumerated), close the document. -/
def save_colour_swatch (colours : List ColourInfo) : String :=
  (colours.enum.foldl (fun svg ic => svg ++ tileFor ic.1 ic.2) svgHeader) ++ "\n</svg>"

/-! ### Cluster-size counting (`src/main.rs:127-130`) -/

/-- Increment slot `c` of a counter vector; `none` models the index-out-of-
bounds panic of `cluster_sizes[cluster] += 1`. -/
def bump : List ℕ → ℕ → Option (List ℕ)
  | [], _ => none
  | x :: xs, 0 => some ((x + 1) :: xs)
  | x :: xs, c + 1 => (bump xs c).map (x :: ·)

/-- The counting loop `for &cluster in predictions.iter()` over a mutable
counter vector. -/
def countLoop : List ℕ → List ℕ → Option (List ℕ)
  | sizes, [] => some sizes
  | sizes, c :: cs =>
      match bump sizes c with
      | none => none
      | some sizes' => countLoop sizes' cs

/-- Cluster-size aggregation of `analyze_image`: start from
`vec![0; args.colours]` and bump the slot of every prediction. -/
def countClusters (preds : List ℕ) (k : ℕ) : Option (List ℕ) :=
  countLoop (List.replicate k 0) preds

/-! ### Result ranking (`src/main.rs:143-144`) -/

/-- The ranking sort of `analyze_image`:
`colours.sort_by(|a, b| b.percentage.partial_cmp(&a.percentage).unwrap())`.
Rust's `sort_by` is a stable sort placing `a` before `b` whenever the
comparator does not answer `Greater`, i.e. whenever
`b.percentage ≤ a.percentage`; it is modelled by the stable `mergeSort`
with that boolean comparison. -/
def sortColours (l : List ColourInfo) : List ColourInfo :=
  l.mergeSort (fun a b => decide (b.percentage ≤ a.percentage))

/-! ### K-Means Engine

The program delegates clustering to `linfa_clustering::KMeans`, an external
dependency whose source is not part of this repository.  The engine is
therefore modelled from the specification (§4.2): parameter validation
`1 ≤ k ≤ N` with an `InvalidParameter` failure otherwise, Lloyd's algorithm
with nearest-centroid assignment (lowest index wins ties), component-wise
mean update with empty clusters keeping their previous centroid, and
termination on unchanged assignments or an iteration cap. -/

/-- A colour sample: one pixel's three channels as floats. -/
abbrev Sample := ℚ × ℚ × ℚ

/-- Failure modes of the clustering engine (spec §4.2 / §7). -/
inductive KMeansError
  | InvalidParameter
  | NumericFailure
deriving DecidableEq

/-- Squared Euclidean distance between two colour samples. -/
def dist2 (a b : Sample) : ℚ :=
  (a.1 - b.1) ^ 2 + (a.2.1 - b.2.1) ^ 2 + (a.2.2 - b.2.2) ^ 2

/-- Modelled from the spec: nearest-centroid assignment of one sample
(`KMeans::predict` of the external `linfa` engine).  Index of the centroid
with minimum squared distance; the strict comparison keeps the
lowest-indexed centroid on ties (spec §4.2 step 2). -/
def nearest (cents : List Sample) (s : Sample) : ℕ :=
  (List.range cents.length).foldl
    (fun best i =>
      if dist2 (cents.getD i (0, 0, 0)) s < dist2 (cents.getD best (0, 0, 0)) s then i
      else best)
    0

/-- Samples currently assigned to cluster `c`. -/
def membersOf (samples : List Sample) (asg : List ℕ) (c : ℕ) : List Sample :=
  (samples.zip asg).filterMap (fun p => if p.2 = c then some p.1 else none)

/-- Component-wise mean of a list of samples. -/
def meanOf (l : List Sample) : Sample :=
  ((l.map (·.1)).sum / l.length, (l.map (·.2.1)).sum / l.length, (l.map (·.2.2)).sum / l.length)

/-- Modelled from the spec: centroid update for one cluster — the mean of
its members, or the previous centroid unchanged when the cluster is empty
(spec §4.2 step 3). -/
def updateCentroid (samples : List Sample) (asg : List ℕ) (c : ℕ) (old : Sample) : Sample :=
  let members := membersOf samples asg c
  if members = [] then old else meanOf members

/-- Centroid update step over all clusters, in index order. -/
def updateStep (samples : List Sample) (asg : List ℕ) (cents : List Sample) : List Sample :=
  cents.enum.map (fun ic => updateCentroid samples asg ic.1 ic.2)

/-- Modelled from the spec: Lloyd iteration — assign every sample to its
nearest centroid, stop when assignments are unchanged, otherwise update the
centroids and recurse; `fuel` is the iteration cap (spec §4.2 steps 2-4). -/
def lloydLoop : ℕ → List Sample → List Sample → List ℕ → List Sample × List ℕ
  | 0, _, cents, asg => (cents, asg)
  | fuel + 1, samples, cents, asg =>
      let newAsg := samples.map (nearest cents)
      if newAsg = asg then (cents, asg)
      else lloydLoop fuel samples (updateStep samples newAsg cents) newAsg

/-- Modelled from the spec: the k-means `fit` entry point of the external
`linfa` engine as specified in §4.2 — it validates `1 ≤ k ≤ N` (failing
with `InvalidParameter` otherwise; this is the failure `analyze_image`
propagates at `src/main.rs:117-119`), seeds the centroids with `k` distinct
positions taken from the Sample Set, and runs Lloyd's algorithm. -/
def fit (k maxIter : ℕ) (samples : List Sample) : Except KMeansError (List Sample × List ℕ) :=
  if k = 0 ∨ samples.length < k then Except.error KMeansError.InvalidParameter
  else Except.ok (lloydLoop maxIter samples (samples.take k) [])

/-! ### The analysis pipeline (`analyze_image`, `src/main.rs:90-147`)

Image decoding and resizing are external (the spec scopes them out); the
model starts from the pixel Sample Set.  The outer `Option` models panics
(`none`), the inner `Except` models the `Result` value. -/

/-- Truncating conversion of a finalized centroid to an output `[u8; 3]`
triple: `[cent[0] as u8, cent[1] as u8, cent[2] as u8]`
(`src/main.rs:138`). -/
def rgbOfCentroid (c : Sample) : ℕ × ℕ × ℕ :=
  (ratToU8 c.1, ratToU8 c.2.1, ratToU8 c.2.2)

/-- The core of `analyze_image` (`src/main.rs:116-146`): fit k-means on the
samples (propagating its error), predict every sample's cluster, count
cluster sizes (panicking — `none` — on an out-of-range prediction), build
one `ColourInfo` per centroid with its percentage (`centroids` and
`cluster_sizes` both have `k` entries, so pairing them models the
`cluster_sizes[i]` lookup), and sort by percentage descending. -/
def analyze_image (k : ℕ) (samples : List Sample) :
    Option (Except KMeansError (List ColourInfo)) :=
  match fit k 100 samples with
  | Except.error e => some (Except.error e)
  | Except.ok p =>
      let cents := p.1
      let preds := samples.map (nearest cents)
      let total : ℚ := (preds.length : ℚ)
      match countClusters preds k with
      | none => none
      | some sizes =>
          some (Except.ok (sortColours ((cents.zip sizes).map
            (fun cs => { rgb := rgbOfCentroid cs.1, percentage := pctOf cs.2 total }))))

/-! ### Theorems: hex formatting (claim C3) -/

theorem parseHexDigit_hexDigit : ∀ d : ℕ, d < 16 → parseHexDigit (hexDigit d) = some d := by
  decide

theorem parseHex2_hex2 (n : ℕ) (h : n < 256) :
    parseHex2 (hexDigit (n / 16)) (hexDigit (n % 16)) = some n := by
  have h₁ : n / 16 < 16 := Nat.div_lt_of_lt_mul (by omega)
  have h₂ : n % 16 < 16 := Nat.mod_lt _ (by norm_num)
  simp [parseHex2, parseHexDigit_hexDigit _ h₁, parseHexDigit_hexDigit _ h₂,
    Nat.div_add_mod]

theorem rgb_to_hex_data (r g b : ℕ) :
    (rgb_to_hex (r, g, b)).data =
      ['#', hexDigit (r / 16), hexDigit (r % 16), hexDigit (g / 16), hexDigit (g % 16),
        hexDigit (b / 16), hexDigit (b % 16)] := by
  simp [rgb_to_hex, hex2, String.data_append]

/-- Claim C3: for every channel triple in `[0,255]^3`, `rgb_to_hex` produces
the 7-character lowercase zero-padded string `#rrggbb` (leading `'#'`
followed by the three two-digit hex channels in r,g,b order), parsing it
back as hex recovers the triple exactly, and the four listed concrete
examples hold. -/
theorem rgb_to_hex_spec (r g b : ℕ) (hr : r < 256) (hg : g < 256) (hb : b < 256) :
    (rgb_to_hex (r, g, b)).length = 7
    ∧ (rgb_to_hex (r, g, b)).data.head? = some '#'
    ∧ parseHexColour (rgb_to_hex (r, g, b)) = some (r, g, b)
    ∧ rgb_to_hex (255, 255, 255) = "#ffffff"
    ∧ rgb_to_hex (0, 0, 0) = "#000000"
    ∧ rgb_to_hex (255, 0, 0) = "#ff0000"
    ∧ rgb_to_hex (85, 85, 85) = "#555555" := by
  refine ⟨?_, ?_, ?_, by decide, by decide, by decide, by decide⟩
  · simp [rgb_to_hex, hex2]
    rfl
  · rw [rgb_to_hex_data]
    rfl
  · simp [parseHexColour, rgb_to_hex_data, parseHex2_hex2 r hr, parseHex2_hex2 g hg,
      parseHex2_hex2 b hb]

/-- Witness for `rgb_to_hex_spec` at the concrete triple (171, 205, 239). -/
theorem rgb_to_hex_spec_witness :
    ((171 : ℕ) < 256 ∧ (205 : ℕ) < 256 ∧ (239 : ℕ) < 256)
    ∧ ((rgb_to_hex (171, 205, 239)).length = 7
        ∧ (rgb_to_hex (171, 205, 239)).data.head? = some '#'
        ∧ parseHexColour (rgb_to_hex (171, 205, 239)) = some (171, 205, 239)
        ∧ rgb_to_hex (255, 255, 255) = "#ffffff"
        ∧ rgb_to_hex (0, 0, 0) = "#000000"
        ∧ rgb_to_hex (255, 0, 0) = "#ff0000"
        ∧ rgb_to_hex (85, 85, 85) = "#555555") :=
  ⟨⟨by decide, by decide, by decide⟩,
    rgb_to_hex_spec 171 205 239 (by decide) (by decide) (by decide)⟩

/-! ### Theorems: the centroid-to-u8 cast (claims C6 and C8) -/

/-- Claim C6: when producing the output rgb triple from a finalized
centroid, each component `v` with `0 ≤ v < 256` is truncated, not rounded:
the resulting channel is exactly `⌊v⌋`. -/
theorem rgbOfCentroid_truncates (c : Sample)
    (h₁ : 0 ≤ c.1) (h₁' : c.1 < 256)
    (h₂ : 0 ≤ c.2.1) (h₂' : c.2.1 < 256)
    (h₃ : 0 ≤ c.2.2) (h₃' : c.2.2 < 256) :
    rgbOfCentroid c = (Int.toNat ⌊c.1⌋, Int.toNat ⌊c.2.1⌋, Int.toNat ⌊c.2.2⌋) := by
  have key : ∀ q : ℚ, 0 ≤ q → q < 256 → ratToU8 q = Int.toNat ⌊q⌋ := by
    intro q h h'
    have hq : ¬ q < 0 := not_lt.mpr h
    have hfl : ⌊q⌋ ≤ 255 := by
      have : ⌊q⌋ < 256 := Int.floor_lt.mpr (by exact_mod_cast h')
      omega
    simp [ratToU8, hq, min_eq_right hfl]
  simp [rgbOfCentroid, key c.1 h₁ h₁', key c.2.1 h₂ h₂', key c.2.2 h₃ h₃']

/-- Witness for `rgbOfCentroid_truncates` at the centroid (200.7, 0.5, 255.9):
truncation gives (200, 0, 255). -/
theorem rgbOfCentroid_truncates_witness :
    ((0 : ℚ) ≤ 2007 / 10 ∧ (2007 / 10 : ℚ) < 256
      ∧ (0 : ℚ) ≤ 1 / 2 ∧ (1 / 2 : ℚ) < 256
      ∧ (0 : ℚ) ≤ 2559 / 10 ∧ (2559 / 10 : ℚ) < 256)
    ∧ rgbOfCentroid ((2007 / 10 : ℚ), (1 / 2 : ℚ), (2559 / 10 : ℚ))
        = (Int.toNat ⌊(2007 / 10 : ℚ)⌋, Int.toNat ⌊(1 / 2 : ℚ)⌋, Int.toNat ⌊(2559 / 10 : ℚ)⌋) :=
  ⟨⟨by norm_num, by norm_num, by norm_num, by norm_num, by norm_num, by norm_num⟩,
    rgbOfCentroid_truncates _ (by norm_num) (by norm_num) (by norm_num) (by norm_num)
      (by norm_num) (by norm_num)⟩

/-- Claim C8: the `as u8` cast is total and saturating — it always yields a
channel at most 255, maps NaN and negative infinity to 0 and positive
infinity to 255, maps every finite value below 0 to 0, and maps every
finite value at least 255 to 255. -/
theorem as_u8_saturates :
    (∀ v : FView, FView.as_u8 v ≤ 255)
    ∧ FView.as_u8 FView.nan = 0
    ∧ FView.as_u8 FView.neginf = 0
    ∧ FView.as_u8 FView.posinf = 255
    ∧ (∀ q : ℚ, q < 0 → FView.as_u8 (FView.fin q) = 0)
    ∧ (∀ q : ℚ, 255 ≤ q → FView.as_u8 (FView.fin q) = 255) := by
  refine ⟨?_, rfl, rfl, rfl, ?_, ?_⟩
  · intro v
    cases v with
    | nan => simp [FView.as_u8]
    | posinf => simp [FView.as_u8]
    | neginf => simp [FView.as_u8]
    | fin q =>
      simp only [FView.as_u8, ratToU8]
      split
      · omega
      · have : min 255 ⌊q⌋ ≤ 255 := min_le_left _ _
        omega
  · intro q hq
    simp [FView.as_u8, ratToU8, hq]
  · intro q hq
    have h₁ : ¬ q < 0 := by
      intro h
      exact absurd (lt_of_le_of_lt hq h) (by norm_num)
    have h₂ : (255 : ℤ) ≤ ⌊q⌋ := Int.le_floor.mpr (by exact_mod_cast hq)
    simp [FView.as_u8, ratToU8, h₁, min_eq_left h₂]

/-- Witness for `as_u8_saturates`: the quantified conjuncts evaluated at
NaN, at -7/2 (negative) and at 300 (above range). -/
theorem as_u8_saturates_witness :
    ((-7 / 2 : ℚ) < 0 ∧ (255 : ℚ) ≤ 300)
    ∧ FView.as_u8 FView.nan ≤ 255
    ∧ FView.as_u8 (FView.fin (-7 / 2)) = 0
    ∧ FView.as_u8 (FView.fin 300) = 255 :=
  ⟨⟨by norm_num, by norm_num⟩, as_u8_saturates.1 FView.nan,
    as_u8_saturates.2.2.2.2.1 _ (by norm_num),
    as_u8_saturates.2.2.2.2.2 _ (by norm_num)⟩

/-! ### Theorems: percentage finiteness and the sort comparator (claim C10) -/

/-- Claim C10: `partial_cmp` answers `None` exactly on NaN, so the sort
comparator's `unwrap` would panic on a NaN percentage; but every percentage
`count / N * 100.0` with `1 ≤ N` and `0 ≤ count ≤ N` is a finite value in
`[0, 100]`, so `partial_cmp` on any two such percentages is `Some` and the
unwrap never fails. -/
theorem sort_comparator_total (N : ℕ) (hN : 1 ≤ N) :
    (∀ v : FView, partialCmpF FView.nan v = none)
    ∧ (∀ v : FView, partialCmpF v FView.nan = none)
    ∧ (∀ count : ℕ, count ≤ N →
        ∃ q : ℚ, pctF count N = FView.fin q ∧ 0 ≤ q ∧ q ≤ 100)
    ∧ (∀ c₁ c₂ : ℕ, c₁ ≤ N → c₂ ≤ N →
        ∃ o : Ordering, partialCmpF (pctF c₂ N) (pctF c₁ N) = some o) := by
  have hN0 : ((N : ℚ)) ≠ 0 := Nat.cast_ne_zero.mpr (by omega)
  have hfin : ∀ count : ℕ, count ≤ N →
      ∃ q : ℚ, pctF count N = FView.fin q ∧ 0 ≤ q ∧ q ≤ 100 := by
    intro count hc
    refine ⟨(count : ℚ) / (N : ℚ) * 100, ?_, ?_, ?_⟩
    · simp [pctF, FView.fdiv, FView.fmul, hN0]
    · positivity
    · have hdiv : (count : ℚ) / (N : ℚ) ≤ 1 := by
        rw [div_le_one (by positivity)]
        exact_mod_cast hc
      calc (count : ℚ) / (N : ℚ) * 100 ≤ 1 * 100 := by
            exact mul_le_mul_of_nonneg_right hdiv (by norm_num)
        _ = 100 := by norm_num
  refine ⟨?_, ?_, hfin, ?_⟩
  · intro v
    cases v <;> rfl
  · intro v
    cases v <;> rfl
  · intro c₁ c₂ h₁ h₂
    obtain ⟨q₁, e₁, -, -⟩ := hfin c₁ h₁
    obtain ⟨q₂, e₂, -, -⟩ := hfin c₂ h₂
    exact ⟨cmpRat q₂ q₁, by rw [e₁, e₂]; rfl⟩

/-- Witness for `sort_comparator_total` with N = 4, counts 1 and 3. -/
theorem sort_comparator_total_witness :
    (1 ≤ 4 ∧ 1 ≤ 4 ∧ 3 ≤ 4)
    ∧ partialCmpF FView.nan (FView.fin 0) = none
    ∧ (∃ q : ℚ, pctF 1 4 = FView.fin q ∧ 0 ≤ q ∧ q ≤ 100)
    ∧ (∃ o : Ordering, partialCmpF (pctF 3 4) (pctF 1 4) = some o) :=
  ⟨⟨by norm_num, by norm_num, by norm_num⟩,
    (sort_comparator_total 4 (by norm_num)).1 (FView.fin 0),
    (sort_comparator_total 4 (by norm_num)).2.2.1 1 (by norm_num),
    (sort_comparator_total 4 (by norm_num)).2.2.2 1 3 (by norm_num) (by norm_num)⟩

/-! ### Theorems: cluster-size counting (claims C9 and C2) -/

theorem bump_lt : ∀ (sizes : List ℕ) (c : ℕ), c < sizes.length →
    ∃ out, bump sizes c = some out ∧ out.length = sizes.length ∧ out.sum = sizes.sum + 1
  | [], c, h => absurd h (by simp)
  | x :: xs, 0, _ => ⟨(x + 1) :: xs, rfl, rfl, by simp; omega⟩
  | x :: xs, c + 1, h => by
    obtain ⟨out, e, hl, hs⟩ := bump_lt xs c (by simpa using h)
    exact ⟨x :: out, by simp [bump, e], by simp [hl], by simp [hs]; omega⟩

theorem bump_ge : ∀ (sizes : List ℕ) (c : ℕ), sizes.length ≤ c → bump sizes c = none
  | [], _, _ => rfl
  | x :: xs, c + 1, h => by
    simp only [bump, bump_ge xs c (by simpa using h), Option.map_none']

theorem countLoop_ok : ∀ (preds sizes : List ℕ), (∀ c ∈ preds, c < sizes.length) →
    ∃ out, countLoop sizes preds = some out ∧ out.length = sizes.length
      ∧ out.sum = sizes.sum + preds.length
  | [], sizes, _ => ⟨sizes, rfl, rfl, by simp⟩
  | c :: cs, sizes, h => by
    obtain ⟨mid, e₁, hl₁, hs₁⟩ := bump_lt sizes c (h c (by simp))
    obtain ⟨out, e₂, hl₂, hs₂⟩ := countLoop_ok cs mid
      (fun d hd => hl₁ ▸ h d (by simp [hd]))
    refine ⟨out, ?_, by omega, by simp at hs₂ ⊢; omega⟩
    simpa [countLoop, e₁] using e₂

theorem countLoop_panics : ∀ (preds sizes : List ℕ), (∃ c ∈ preds, sizes.length ≤ c) →
    countLoop sizes preds = none
  | c :: cs, sizes, h => by
    by_cases hc : c < sizes.length
    · obtain ⟨mid, e₁, hl₁, -⟩ := bump_lt sizes c hc
      obtain ⟨d, hd, hdk⟩ := h
      rcases List.mem_cons.mp hd with rfl | hd'
      · omega
      · have := countLoop_panics cs mid ⟨d, hd', hl₁ ▸ hdk⟩
        simpa [countLoop, e₁] using this
    · simp [countLoop, bump_ge sizes c (by omega)]

theorem countClusters_ok (preds : List ℕ) (k : ℕ) (h : ∀ c ∈ preds, c < k) :
    ∃ sizes, countClusters preds k = some sizes ∧ sizes.length = k
      ∧ sizes.sum = preds.length := by
  obtain ⟨out, e, hl, hs⟩ := countLoop_ok preds (List.replicate k 0)
    (fun c hc => by simpa using h c hc)
  exact ⟨out, e, by simpa using hl, by simpa using hs⟩

theorem countClusters_panics (preds : List ℕ) (k : ℕ) (h : ∃ c ∈ preds, k ≤ c) :
    countClusters preds k = none := by
  obtain ⟨c, hc, hck⟩ := h
  exact countLoop_panics preds _ ⟨c, hc, by simpa using hck⟩

/-- Claim C9: the counting loop indexes `cluster_sizes` by each prediction
without a bounds check.  If every prediction is below `k` the loop is total
and increments exactly one counter per sample (the final counters sum to
the number of samples); a prediction at or above `k` makes the loop panic
(modelled as `none`) rather than return an error. -/
theorem cluster_size_indexing (preds : List ℕ) (k : ℕ) :
    ((∀ c ∈ preds, c < k) →
      ∃ sizes, countClusters preds k = some sizes ∧ sizes.length = k
        ∧ sizes.sum = preds.length)
    ∧ ((∃ c ∈ preds, k ≤ c) → countClusters preds k = none) :=
  ⟨countClusters_ok preds k, countClusters_panics preds k⟩

/-- Witness for `cluster_size_indexing` at predictions [0, 1, 1, 0, 1] with
k = 2 (all in range) and [0, 2] with k = 2 (2 out of range panics). -/
theorem cluster_size_indexing_witness :
    ((∀ c ∈ [0, 1, 1, 0, 1], c < 2) ∧ (∃ c ∈ [0, 2], 2 ≤ c))
    ∧ (∃ sizes, countClusters [0, 1, 1, 0, 1] 2 = some sizes ∧ sizes.length = 2
        ∧ sizes.sum = [0, 1, 1, 0, 1].length)
    ∧ countClusters [0, 2] 2 = none :=
  ⟨⟨by decide, by decide⟩,
    (cluster_size_indexing [0, 1, 1, 0, 1] 2).1 (by decide),
    (cluster_size_indexing [0, 2] 2).2 (by decide)⟩

/-- Claim C2: for a nonempty prediction list over `N` samples whose entries
all lie below `k`, the per-cluster sizes sum to exactly `N` (every sample is
counted in exactly one cluster) and the percentages `size / N * 100` sum to
exactly `100` (hence within any positive tolerance such as `1e-6`). -/
theorem percentages_sum_100 (preds : List ℕ) (k : ℕ) (hne : preds ≠ [])
    (hall : ∀ c ∈ preds, c < k) :
    ∃ sizes, countClusters preds k = some sizes ∧ sizes.sum = preds.length
      ∧ (sizes.map (fun s => pctOf s ((preds.length : ℕ) : ℚ))).sum = 100 := by
  obtain ⟨sizes, e, -, hs⟩ := countClusters_ok preds k hall
  have hN : ((preds.length : ℕ) : ℚ) ≠ 0 :=
    Nat.cast_ne_zero.mpr (by simpa using List.length_pos.mpr hne |>.ne')
  refine ⟨sizes, e, hs, ?_⟩
  have hfun : (fun s : ℕ => pctOf s ((preds.length : ℕ) : ℚ))
      = fun s : ℕ => (s : ℚ) * (100 / ((preds.length : ℕ) : ℚ)) := by
    funext s
    simp only [pctOf]
    ring
  rw [hfun, List.sum_map_mul_right, ← Nat.cast_list_sum, hs]
  field_simp

/-- Witness for `percentages_sum_100` at predictions [0, 1, 0, 2] with
k = 3. -/
theorem percentages_sum_100_witness :
    (([0, 1, 0, 2] : List ℕ) ≠ [] ∧ ∀ c ∈ [0, 1, 0, 2], c < 3)
    ∧ (∃ sizes, countClusters [0, 1, 0, 2] 3 = some sizes
        ∧ sizes.sum = [0, 1, 0, 2].length
        ∧ (sizes.map (fun s => pctOf s (([0, 1, 0, 2].length : ℕ) : ℚ))).sum = 100) :=
  ⟨⟨by decide, by decide⟩, percentages_sum_100 [0, 1, 0, 2] 3 (by decide) (by decide)⟩

/-! ### Theorems: the Result Ranker sort (claim C1) -/

theorem sortComparator_trans : ∀ a b c : ColourInfo,
    decide (b.percentage ≤ a.percentage) = true →
    decide (c.percentage ≤ b.percentage) = true →
    decide (c.percentage ≤ a.percentage) = true := by
  intro a b c h₁ h₂
  simp only [decide_eq_true_eq] at *
  exact le_trans h₂ h₁

theorem sortComparator_total : ∀ a b : ColourInfo,
    (decide (b.percentage ≤ a.percentage) || decide (a.percentage ≤ b.percentage)) = true := by
  intro a b
  simpa using le_total b.percentage a.percentage

/-- Claim C1: the ranking sort is a stable descending sort by percentage —
the output is pairwise non-increasing in percentage, is a permutation of
the input, and any two entries with equal percentage keep their relative
order from before the sort (so ties keep their cluster-index order, the
input being listed in cluster-index order). -/
theorem ranker_stable_sort (l : List ColourInfo) :
    (sortColours l).Pairwise (fun a b => b.percentage ≤ a.percentage)
    ∧ (sortColours l).Perm l
    ∧ ∀ a b : ColourInfo, a.percentage = b.percentage →
        [a, b].Sublist l → [a, b].Sublist (sortColours l) := by
  unfold sortColours
  refine ⟨?_, List.mergeSort_perm l _, ?_⟩
  · have h := List.sorted_mergeSort sortComparator_trans sortComparator_total l
    exact h.imp (fun hab => by simpa using hab)
  · intro a b hab hsub
    exact List.pair_sublist_mergeSort sortComparator_trans sortComparator_total
      (by simp [hab]) hsub

/-- Witness for `ranker_stable_sort` at a two-element list with equal
percentages: both orderings of the pair hypothesis are discharged and the
pair stays in order in the sorted output. -/
theorem ranker_stable_sort_witness :
    ((⟨(1, 2, 3), 50⟩ : ColourInfo).percentage = (⟨(4, 5, 6), 50⟩ : ColourInfo).percentage
      ∧ [(⟨(1, 2, 3), 50⟩ : ColourInfo), ⟨(4, 5, 6), 50⟩].Sublist
          [(⟨(1, 2, 3), 50⟩ : ColourInfo), ⟨(4, 5, 6), 50⟩])
    ∧ [(⟨(1, 2, 3), 50⟩ : ColourInfo), ⟨(4, 5, 6), 50⟩].Sublist
        (sortColours [⟨(1, 2, 3), 50⟩, ⟨(4, 5, 6), 50⟩]) :=
  ⟨⟨rfl, List.Sublist.refl _⟩,
    (ranker_stable_sort [⟨(1, 2, 3), 50⟩, ⟨(4, 5, 6), 50⟩]).2.2 _ _ rfl (List.Sublist.refl _)⟩

/-! ### Theorems: the SVG swatch (claim C7) -/

theorem substr_refl (s : String) : Substr s s :=
  ⟨"", "", by simp⟩

theorem substr_appL (u : String) {s t : String} (h : Substr s t) : Substr s (u ++ t) := by
  obtain ⟨p, q, rfl⟩ := h
  exact ⟨u ++ p, q, by simp [String.append_assoc]⟩

theorem substr_appR (u : String) {s t : String} (h : Substr s t) : Substr s (t ++ u) := by
  obtain ⟨p, q, rfl⟩ := h
  exact ⟨p, q ++ u, by simp [String.append_assoc]⟩

theorem substr_rgbText_tileFor (i : ℕ) (c : ColourInfo) :
    Substr (rgbText c) (tileFor i c) := by
  unfold tileFor
  exact substr_appR _ (substr_appR _ (substr_appR _ (substr_appR _ (substr_appR _
    (substr_appR _ (substr_appR _ (substr_appR _ (substr_appR _
    (substr_appL _ (substr_refl _))))))))))

theorem substr_pct_tileFor (i : ℕ) (c : ColourInfo) :
    Substr (fmt1 c.percentage ++ "%") (tileFor i c) := by
  unfold tileFor
  rw [show ("%</text>" : String) = "%" ++ "</text>" from rfl, ← String.append_assoc,
    String.append_assoc _ (fmt1 c.percentage) "%"]
  exact substr_appR _ (substr_appL _ (substr_refl _))

theorem substr_joinTiles (s : String) (l : List (ℕ × ColourInfo))
    (h : ∃ ic ∈ l, Substr s (tileFor ic.1 ic.2)) : Substr s (joinTiles l) := by
  induction l with
  | nil =>
    obtain ⟨ic, hmem, -⟩ := h
    cases hmem
  | cons hd tl ih =>
    obtain ⟨ic, hmem, hs⟩ := h
    rcases List.mem_cons.mp hmem with rfl | hmem'
    · exact substr_appR _ hs
    · exact substr_appL _ (ih ⟨ic, hmem', hs⟩)

theorem exists_mem_enumFrom {α : Type} {c : α} :
    ∀ (cs : List α) (n : ℕ), c ∈ cs → ∃ i, (i, c) ∈ cs.enumFrom n
  | [], _, h => absurd h (by simp)
  | hd :: tl, n, h => by
    rcases List.mem_cons.mp h with rfl | h'
    · exact ⟨n, by simp⟩
    · obtain ⟨i, hi⟩ := exists_mem_enumFrom tl (n + 1) h'
      exact ⟨i, by simp [hi]⟩

theorem foldl_tiles_eq : ∀ (l : List (ℕ × ColourInfo)) (init : String),
    l.foldl (fun svg ic => svg ++ tileFor ic.1 ic.2) init = init ++ joinTiles l
  | [], init => by simp [joinTiles]
  | ic :: rest, init => by
    rw [List.foldl_cons, foldl_tiles_eq rest, joinTiles, ← String.append_assoc]

/-- Claim C7: `save_colour_swatch` emits the fixed header, then one tile per
result in list (rank) order, then the closing tag; for every result the
output contains the literal `rgb(r, g, b)` text with that result's channels
and its percentage formatted to one decimal place followed by `%`; for the
result (255, 0, 0) at 50.0 those literals are `"rgb(255, 0, 0)"` and
`"50.0%"`. -/
theorem swatch_contents (colours : List ColourInfo) :
    save_colour_swatch colours = svgHeader ++ joinTiles colours.enum ++ "\n</svg>"
    ∧ (∀ c ∈ colours, Substr (rgbText c) (save_colour_swatch colours)
        ∧ Substr (fmt1 c.percentage ++ "%") (save_colour_swatch colours))
    ∧ rgbText ⟨(255, 0, 0), 50⟩ = "rgb(255, 0, 0)"
    ∧ fmt1 (50 : ℚ) ++ "%" = "50.0%" := by
  have hjoin : save_colour_swatch colours
      = svgHeader ++ joinTiles colours.enum ++ "\n</svg>" := by
    unfold save_colour_swatch
    rw [foldl_tiles_eq]
  have hfmt : fmt1 (50 : ℚ) ++ "%" = "50.0%" := by
    have h : roundHalfEven ((50 : ℚ) * 10) = 500 := by norm_num [roundHalfEven]
    simp only [fmt1, h]
    decide
  refine ⟨hjoin, ?_, by decide, hfmt⟩
  intro c hc
  obtain ⟨i, hi⟩ := exists_mem_enumFrom colours 0 hc
  rw [hjoin]
  constructor
  · exact substr_appR _ (substr_appL _
      (substr_joinTiles _ _ ⟨(i, c), hi, substr_rgbText_tileFor i c⟩))
  · exact substr_appR _ (substr_appL _
      (substr_joinTiles _ _ ⟨(i, c), hi, substr_pct_tileFor i c⟩))

/-- Witness for `swatch_contents` at the single result (255, 0, 0) / 50.0. -/
theorem swatch_contents_witness :
    ((⟨(255, 0, 0), 50⟩ : ColourInfo) ∈ [(⟨(255, 0, 0), 50⟩ : ColourInfo)])
    ∧ (Substr (rgbText ⟨(255, 0, 0), 50⟩)
          (save_colour_swatch [⟨(255, 0, 0), 50⟩])
        ∧ Substr (fmt1 (⟨(255, 0, 0), 50⟩ : ColourInfo).percentage ++ "%")
          (save_colour_swatch [⟨(255, 0, 0), 50⟩])) :=
  ⟨by decide, (swatch_contents [⟨(255, 0, 0), 50⟩]).2.1 _ (by decide)⟩

/-! ### Theorems: parameter validation and degenerate clusters
(claims C4 and C5) -/

theorem fit_invalid (k maxIter : ℕ) (samples : List Sample)
    (hk : k = 0 ∨ samples.length < k) :
    fit k maxIter samples = Except.error KMeansError.InvalidParameter := by
  unfold fit
  rw [if_pos hk]

theorem fit_ok (k : ℕ) (samples : List Sample) (hk : k ≠ 0)
    (hkN : ¬ samples.length < k) :
    fit k 100 samples = Except.ok (lloydLoop 100 samples (samples.take k) []) := by
  unfold fit
  rw [if_neg (by tauto)]

/-- Claim C4: for a nonempty Sample Set, calling the pipeline with `k = 0`
or `k > N` makes `analyze_image` return the propagated `InvalidParameter`
error rather than a result, and the divisor of the downstream percentage
computation (the sample count) is nonzero, so division by zero never
occurs. -/
theorem invalid_k_errors (k : ℕ) (samples : List Sample) (hne : samples ≠ [])
    (hk : k = 0 ∨ samples.length < k) :
    analyze_image k samples = some (Except.error KMeansError.InvalidParameter)
    ∧ ((samples.length : ℕ) : ℚ) ≠ 0 := by
  constructor
  · simp [analyze_image, fit_invalid k 100 samples hk]
  · exact Nat.cast_ne_zero.mpr (by simpa using List.length_pos.mpr hne |>.ne')

/-- Witness for `invalid_k_errors` at k = 0 over one sample, and thereby
also checking the k = 5 > N = 1 case through a second application. -/
theorem invalid_k_errors_witness :
    (([((0 : ℚ), (0 : ℚ), (0 : ℚ))] : List Sample) ≠ [] ∧ ((0 = 0) ∨ [((0 : ℚ), (0 : ℚ), (0 : ℚ))].length < 0)
      ∧ ((5 = 0) ∨ [((0 : ℚ), (0 : ℚ), (0 : ℚ))].length < 5))
    ∧ analyze_image 0 [((0 : ℚ), (0 : ℚ), (0 : ℚ))]
        = some (Except.error KMeansError.InvalidParameter)
    ∧ analyze_image 5 [((0 : ℚ), (0 : ℚ), (0 : ℚ))]
        = some (Except.error KMeansError.InvalidParameter) :=
  ⟨⟨by simp, Or.inl rfl, Or.inr (by simp)⟩,
    (invalid_k_errors 0 _ (by simp) (Or.inl rfl)).1,
    (invalid_k_errors 5 _ (by simp) (Or.inr (by simp))).1⟩

theorem updateStep_length (smp : List Sample) (asg : List ℕ) (cents : List Sample) :
    (updateStep smp asg cents).length = cents.length := by
  simp [updateStep]

theorem lloydLoop_fst_length : ∀ (fuel : ℕ) (smp cents : List Sample) (asg : List ℕ),
    (lloydLoop fuel smp cents asg).1.length = cents.length
  | 0, _, _, _ => rfl
  | fuel + 1, smp, cents, asg => by
    simp only [lloydLoop]
    split
    · rfl
    · rw [lloydLoop_fst_length fuel, updateStep_length]

theorem nearest_lt (cents : List Sample) (s : Sample) (h : cents ≠ []) :
    nearest cents s < cents.length := by
  have hpos : 0 < cents.length := List.length_pos.mpr h
  unfold nearest
  have aux : ∀ (l : List ℕ) (b : ℕ), b < cents.length → (∀ i ∈ l, i < cents.length) →
      (l.foldl
        (fun best i =>
          if dist2 (cents.getD i (0, 0, 0)) s < dist2 (cents.getD best (0, 0, 0)) s then i
          else best) b) < cents.length := by
    intro l
    induction l with
    | nil => exact fun b hb _ => hb
    | cons hd tl ih =>
      intro b hb hall
      rw [List.foldl_cons]
      apply ih
      · split
        · exact hall hd (by simp)
        · exact hb
      · exact fun i hi => hall i (by simp [hi])
  exact aux _ 0 hpos (fun i hi => List.mem_range.mp hi)

/-- Claim C5: on a nonempty Sample Set with fewer distinct colours than
`k` (and `k` within the validated range), the pipeline neither panics nor
errors — it produces a result; the update step leaves the centroid of any
cluster with no assigned samples unchanged (no division by the empty
member count); and a cluster of size 0 is reported with percentage exactly
0, which at the f64 level is the finite value `0.0`, not NaN. -/
theorem degenerate_cluster_safety (k : ℕ) (samples : List Sample)
    (hne : samples ≠ []) (hdist : samples.dedup.length < k)
    (hkN : k ≤ samples.length) :
    (∃ res, analyze_image k samples = some (Except.ok res))
    ∧ (∀ (smp : List Sample) (asg : List ℕ) (cents : List Sample) (c : ℕ) (d : Sample),
        membersOf smp asg c = [] → c < cents.length →
        (updateStep smp asg cents).getD c d = cents.getD c d)
    ∧ (∀ N : ℚ, pctOf 0 N = 0)
    ∧ pctF 0 samples.length = FView.fin 0 := by
  have hk0 : k ≠ 0 := by omega
  have hfit := fit_ok k samples hk0 (by omega)
  have hlen : (lloydLoop 100 samples (samples.take k) []).1.length = k := by
    rw [lloydLoop_fst_length, List.length_take]
    omega
  have hcne : (lloydLoop 100 samples (samples.take k) []).1 ≠ [] := by
    intro hnil
    rw [hnil] at hlen
    exact hk0 hlen.symm
  have hpreds : ∀ c ∈ samples.map (nearest (lloydLoop 100 samples (samples.take k) []).1),
      c < k := by
    intro c hc
    obtain ⟨x, -, rfl⟩ := List.mem_map.mp hc
    have := nearest_lt _ x hcne
    omega
  obtain ⟨sizes, hsz, -, -⟩ := countClusters_ok _ k hpreds
  refine ⟨?_, ?_, ?_, ?_⟩
  · simp only [analyze_image, hfit, hsz]
    exact ⟨_, rfl⟩
  · intro smp asg cents c d hemp hc
    have h₁ : (updateStep smp asg cents).getD c d
        = ((cents.enum.map (fun ic => updateCentroid smp asg ic.1 ic.2)).get? c).getD d := by
      simp [updateStep, List.getD]
    have h₂ : cents.enum.get? c = (cents.get? c).map (fun a => (c, a)) := by
      simpa using List.getElem?_enum (l := cents) (i := c)
    have hx : cents.get? c = some (cents.get ⟨c, hc⟩) := List.get?_eq_get hc
    rw [h₁, List.get?_map, h₂, hx]
    simp [updateCentroid, hemp, List.getD, hx, List.getElem?_eq_getElem hc]
  · intro N
    simp [pctOf]
  · have hN : ((samples.length : ℕ) : ℚ) ≠ 0 :=
      Nat.cast_ne_zero.mpr (by simpa using List.length_pos.mpr hne |>.ne')
    simp [pctF, FView.fdiv, FView.fmul, hN]

/-- Witness for `degenerate_cluster_safety`: two identical black samples,
k = 2 (one distinct colour, two clusters). -/
theorem degenerate_cluster_safety_witness :
    (([((0 : ℚ), (0 : ℚ), (0 : ℚ)), ((0 : ℚ), (0 : ℚ), (0 : ℚ))] : List Sample) ≠ []
      ∧ ([((0 : ℚ), (0 : ℚ), (0 : ℚ)), ((0 : ℚ), (0 : ℚ), (0 : ℚ))] : List Sample).dedup.length < 2
      ∧ 2 ≤ ([((0 : ℚ), (0 : ℚ), (0 : ℚ)), ((0 : ℚ), (0 : ℚ), (0 : ℚ))] : List Sample).length)
    ∧ ((∃ res, analyze_image 2 [((0 : ℚ), (0 : ℚ), (0 : ℚ)), ((0 : ℚ), (0 : ℚ), (0 : ℚ))]
          = some (Except.ok res))
        ∧ pctF 0 ([((0 : ℚ), (0 : ℚ), (0 : ℚ)), ((0 : ℚ), (0 : ℚ), (0 : ℚ))] : List Sample).length
          = FView.fin 0) :=
  ⟨⟨by simp, by decide, by decide⟩,
    (degenerate_cluster_safety 2 _ (by simp) (by decide) (by decide)).1,
    (degenerate_cluster_safety 2 _ (by simp) (by decide) (by decide)).2.2.2⟩
